import Mathlib

/-!
Verification development for the ContentRecords plugin core
(hyperbricks-plugins): tree path addressing, bind collection with
boundary detection, the view/action resolver, the SQLite-backed record
store, and the inline-edit protocol handler.

The Go source is shallowly embedded: Go `map[string]interface{}` template
nodes become association lists of `String × GoVal` (the source's
`normalizeInterfaceMap` makes `map[interface{}]interface{}` and
`map[string]interface{}` coincide, so a single canonical map form is
used); the SQLite tables become explicit list-backed state with SQL
statements translated row-by-row; fallible operations return `Except`.
String primitives (`strings.TrimSpace`, `strings.ToLower`,
`strings.Split`, `strconv.Atoi`, `strconv.ParseInt`) are modelled by
structural functions over the character list so that all definitions
compute.
-/

namespace ContentRecords

/-- `strings.TrimSpace`: drop leading and trailing whitespace. -/
def goTrim (s : String) : String :=
  String.mk (((s.data.dropWhile Char.isWhitespace).reverse.dropWhile Char.isWhitespace).reverse)

/-- `strings.ToLower` (ASCII case folding, which is all the engine compares). -/
def goToLower (s : String) : String :=
  String.mk (s.data.map Char.toLower)

/-- `strings.HasPrefix`. -/
def goStartsWith (s pat : String) : Bool :=
  pat.data.isPrefixOf s.data

/-- `strings.Contains` for a fixed non-empty needle. -/
def containsSub (needle : List Char) : List Char → Bool
  | [] => needle.isEmpty
  | c :: rest => needle.isPrefixOf (c :: rest) || containsSub needle rest

/-- `strings.Contains`. -/
def goContains (s sub : String) : Bool :=
  containsSub sub.data s.data

/-- Helper for `strings.Split(s, ".")`: split a character list on a separator. -/
def splitCharAux (sep : Char) : List Char → List Char → List String
  | [], acc => [String.mk acc.reverse]
  | ch :: rest, acc =>
    if ch = sep then String.mk acc.reverse :: splitCharAux sep rest []
    else splitCharAux sep rest (ch :: acc)

/-- `strings.Split(path, ".")` as used by `setAtPath`/`getAtPath`. -/
def goSplitDot (s : String) : List String :=
  splitCharAux '.' s.data []

/-- Decimal value of a digit list (used by the `strconv` models). -/
def digitsToNat (cs : List Char) : Nat :=
  cs.foldl (fun acc c => acc * 10 + (c.toNat - '0'.toNat)) 0

/-- All-digit parse of a non-empty character list, else `none`. -/
def parseDigits (cs : List Char) : Option Nat :=
  if cs ≠ [] ∧ cs.all Char.isDigit then some (digitsToNat cs) else none

/-- `strconv.ParseInt(s, 10, 64)` (also `strconv.Atoi` on a 64-bit platform):
optional sign, decimal digits, 64-bit range check. -/
def goParseInt (s : String) : Option Int :=
  let (neg, digits) :=
    match s.data with
    | '-' :: rest => (true, rest)
    | '+' :: rest => (false, rest)
    | cs => (false, cs)
  match parseDigits digits with
  | some n =>
    let v : Int := if neg then -(n : Int) else (n : Int)
    if -(2 ^ 63) ≤ v ∧ v < 2 ^ 63 then some v else none
  | none => none

/-- `parseBoolFlag`: truthy string flags. -/
def parseBoolFlag (value : String) : Bool :=
  let v := goToLower (goTrim value)
  v == "1" || v == "true" || v == "yes" || v == "on" || v == "y"

/-- `parseRecordID`: trimmed decimal parse, `0` on any failure. -/
def parseRecordID (value : String) : Int :=
  let v := goTrim value
  if v = "" then 0
  else match goParseInt v with
    | some id => id
    | none => 0

/-! ## Tree model

`GoVal` is the canonical template-tree node: scalar (string / int /
bool), string-keyed map, or sequence.  Go's `float64` scalar case is not
modelled (no claim depends on it; `parseBoolish` treats it like `int`). -/

inductive GoVal where
  | str (s : String)
  | int (n : Int)
  | bool (b : Bool)
  | vmap (entries : List (String × GoVal))
  | vlist (items : List GoVal)
  deriving Repr

/-- A canonical `map[string]interface{}` node. -/
abbrev Node := List (String × GoVal)

/-- First-match association-list lookup (Go map read `m[k]`). -/
def assocLookup (l : List (String × GoVal)) (k : String) : Option GoVal :=
  match l with
  | [] => none
  | (k', v) :: rest => if k' = k then some v else assocLookup rest k

/-- Go map write `m[k] = v`: replace the binding if present, else add it. -/
def assocSet (l : List (String × GoVal)) (k : String) (v : GoVal) : List (String × GoVal) :=
  match l with
  | [] => [(k, v)]
  | (k', v') :: rest => if k' = k then (k, v) :: rest else (k', v') :: assocSet rest k v

/-- List-index parse used by `setAtPath`/`getAtPath` on sequence nodes:
`strconv.Atoi(part)`, then the `0 ≤ idx < len` bounds check. -/
def listIdx (len : Nat) (part : String) : Option Nat :=
  match goParseInt part with
  | some idx => if 0 ≤ idx ∧ idx < (len : Int) then some idx.toNat else none
  | none => none

/-- The loop body of `setAtPath` over the already-split segment list.
Empty (trimmed) segments are skipped; the last segment writes into a map
(insert-or-replace) or a sequence (bounds-checked); intermediate
segments require the child to exist.  `none` models the Go `false`
return, in which case the source makes no mutation. -/
def setParts (cur : GoVal) (parts : List String) (v : GoVal) : Option GoVal :=
  match parts with
  | [] => none
  | part :: rest =>
    let p := goTrim part
    if p = "" then setParts cur rest v
    else if rest.isEmpty then
      match cur with
      | .vmap entries => some (.vmap (assocSet entries p v))
      | .vlist items =>
        match listIdx items.length p with
        | some i => some (.vlist (items.set i v))
        | none => none
      | _ => none
    else
      match cur with
      | .vmap entries =>
        match assocLookup entries p with
        | some child => (setParts child rest v).map (fun c => .vmap (assocSet entries p c))
        | none => none
      | .vlist items =>
        match listIdx items.length p with
        | some i => (setParts (items.getD i (.str "")) rest v).map (fun c => .vlist (items.set i c))
        | none => none
      | _ => none

/-- The loop body of `getAtPath` over the already-split segment list. -/
def getParts (cur : GoVal) (parts : List String) : Option GoVal :=
  match parts with
  | [] => some cur
  | part :: rest =>
    let p := goTrim part
    if p = "" then getParts cur rest
    else
      match cur with
      | .vmap entries =>
        match assocLookup entries p with
        | some child => getParts child rest
        | none => none
      | .vlist items =>
        match listIdx items.length p with
        | some i => getParts (items.getD i (.str "")) rest
        | none => none
      | _ => none

/-- `setAtPath(root, path, value) -> found` (functional form: `some`
of the updated tree models `true`, `none` models `false`; on `false`
the Go code leaves the tree untouched). -/
def setAtPath (root : GoVal) (path : String) (v : GoVal) : Option GoVal :=
  setParts root (goSplitDot path) v

/-- `getAtPath(root, path) -> (value, found)`. -/
def getAtPath (root : GoVal) (path : String) : Option GoVal :=
  getParts root (goSplitDot path)

/-! ## Boundary detection and bind collection -/

/-- `parseBoolish` on a present value (the `float64` case of the source is
subsumed by `int`; other kinds are the `default: false` branch). -/
def parseBoolish : GoVal → Bool
  | .bool b => b
  | .str s => parseBoolFlag s
  | .int n => n != 0
  | _ => false

/-- `parseBoolish` applied to a Go map read, where a missing key yields
`nil` and `parseBoolish(nil)` is `false`. -/
def parseBoolishOpt : Option GoVal → Bool
  | some v => parseBoolish v
  | none => false

/-- `isBoundaryPlugin`: a `<PLUGIN>`-typed node whose plugin name contains
`contentrecords`, or whose `data` map carries a truthy
`content_record_boundary`/`boundary` flag. -/
def isBoundaryPlugin (node : Node) : Bool :=
  let nodeType := match assocLookup node "@type" with | some (.str s) => s | _ => ""
  if goToLower (goTrim nodeType) ≠ "<plugin>" then false
  else
    let pluginName := match assocLookup node "plugin" with | some (.str s) => s | _ => ""
    if goContains (goToLower pluginName) "contentrecords" then true
    else
      match assocLookup node "data" with
      | some (.vmap data) =>
        parseBoolishOpt (assocLookup data "content_record_boundary") ||
          parseBoolishOpt (assocLookup data "boundary")
      | _ => false

mutual

/-- `hasBoundaryPlugin`: does any node of the tree satisfy
`isBoundaryPlugin`?  Map children under `@`-prefixed keys are skipped;
sequences are searched element-wise; scalars never match. -/
def hasBoundaryPlugin : GoVal → Bool
  | .vmap entries => isBoundaryPlugin entries || hasBoundaryEntries entries
  | .vlist items => hasBoundaryList items
  | _ => false

/-- The `for key, child := range typed` loop of `hasBoundaryPlugin`. -/
def hasBoundaryEntries : List (String × GoVal) → Bool
  | [] => false
  | (key, child) :: rest =>
    (!goStartsWith key "@" && hasBoundaryPlugin child) || hasBoundaryEntries rest

/-- The `[]interface{}` loop of `hasBoundaryPlugin`. -/
def hasBoundaryList : List GoVal → Bool
  | [] => false
  | child :: rest => hasBoundaryPlugin child || hasBoundaryList rest

end

/-- A collected bind target (`bindTarget` struct). -/
structure bindTarget where
  Path : String
  deriving Repr, DecidableEq

/-- The Bind Index accumulator (`map[string]bindTarget`, first write wins). -/
abbrev BindList := List (String × bindTarget)

/-- Bind Index lookup. -/
def bindLookup (l : BindList) (k : String) : Option bindTarget :=
  match l with
  | [] => none
  | (k', v) :: rest => if k' = k then some v else bindLookup rest k

/-- The `@bind` block of `collectBinds`: the node's own declaration, when
`@bind` is a map carrying non-empty (trimmed) `field` and `path` strings. -/
def ownBind (node : Node) : Option (String × String) :=
  match assocLookup node "@bind" with
  | some (.vmap bindMap) =>
    let field := goTrim (match assocLookup bindMap "field" with | some (.str s) => s | _ => "")
    let bindPath := goTrim (match assocLookup bindMap "path" with | some (.str s) => s | _ => "")
    if field ≠ "" ∧ bindPath ≠ "" then some (field, bindPath) else none
  | _ => none

/-- Registering the node's own `@bind` into the index: first-registered
binding for a field wins, the path is made relative to the traversal path. -/
def bindInsert (binds : BindList) (node : Node) (path : String) : BindList :=
  match ownBind node with
  | some (field, bindPath) =>
    if (bindLookup binds field).isSome then binds
    else binds ++ [(field, ⟨if path = "" then bindPath else path ++ "." ++ bindPath⟩)]
  | none => binds

mutual

/-- The body of `collectBinds` on a child value: only map children are
entered (`value.(map[string]interface{})` / normalized
`map[interface{}]interface{}`); sequences and scalars are skipped. -/
def collectBindsVal : GoVal → String → BindList → BindList
  | .vmap entries, path, binds =>
    let binds1 := bindInsert binds entries path
    if isBoundaryPlugin entries then binds1
    else collectBindsChildren entries path binds1
  | _, _, binds => binds

/-- The `for key, value := range node` loop of `collectBinds`:
`@`-prefixed keys are skipped, every other child is offered to
`collectBindsVal` with the extended traversal path. -/
def collectBindsChildren : List (String × GoVal) → String → BindList → BindList
  | [], _, binds => binds
  | (key, value) :: rest, path, binds =>
    let binds' :=
      if goStartsWith key "@" then binds
      else collectBindsVal value (if path = "" then key else path ++ "." ++ key) binds
    collectBindsChildren rest path binds'

end

/-- `collectBinds(node, path, binds)`: record the node's own `@bind`,
stop if the node is a boundary, otherwise recurse into map children
under non-`@`-prefixed keys. -/
def collectBinds (node : Node) (path : String) (binds : BindList) : BindList :=
  collectBindsVal (.vmap node) path binds

/-- The field names present in a Bind Index. -/
def bindKeys (binds : BindList) : List String :=
  binds.map Prod.fst

/-- Reachability of a bind declaration by the `collectBinds` traversal:
either the node itself declares the field via a well-formed `@bind`
(this also applies to a boundary node, which is still visited), or a
non-boundary node has a map child under a non-`@`-prefixed key through
which the declaration is reachable.  Descent never passes a boundary
node and never enters sequence or scalar children, mirroring the
traversal exactly. -/
inductive BindReach : Node → String → Prop where
  | here (node : Node) (f p : String) :
      ownBind node = some (f, p) → BindReach node f
  | child (node : Node) (key : String) (c : Node) (f : String) :
      isBoundaryPlugin node = false →
      (key, GoVal.vmap c) ∈ node →
      goStartsWith key "@" = false →
      BindReach c f → BindReach node f

mutual

/-- Replace every sequence node anywhere in a tree by the empty sequence
(auxiliary: used to state that `collectBinds` never reads sequence
contents). -/
def eraseLists : GoVal → GoVal
  | .vmap entries => .vmap (eraseListsEntries entries)
  | .vlist _ => .vlist []
  | v => v

/-- `eraseLists` over a map's entries. -/
def eraseListsEntries : List (String × GoVal) → List (String × GoVal)
  | [] => []
  | (k, v) :: rest => (k, eraseLists v) :: eraseListsEntries rest

end

/-! ## View/action resolver -/

/-- The configuration fields read by the embedded functions
(`Fields` struct, restricted to the members those functions touch). -/
structure Fields where
  View : String := ""
  Action : String := ""
  Mode : String := ""
  RecordParam : String := ""
  UploadDir : String := ""
  Upload : String := ""
  deriving Repr, DecidableEq

/-- `resolveViewAction`: trimmed lower-cased view/action, legacy `mode`
translation when both are empty, then defaulting to `list`/`render`. -/
def resolveViewAction (fields : Fields) : String × String :=
  let view := goToLower (goTrim fields.View)
  let action := goToLower (goTrim fields.Action)
  let mode := goToLower (goTrim fields.Mode)
  let va :=
    if view = "" ∧ action = "" ∧ mode ≠ "" then
      if mode = "render" then ("list", "render")
      else if mode = "cms" then ("list", "edit")
      else if mode = "edit" then ("single", "edit")
      else (view, action)
    else (view, action)
  let view := if va.1 = "" then "list" else va.1
  let action := if va.2 = "" then "render" else va.2
  (view, action)

/-- The four dispatch branches of `Render` plus its `default` fallback. -/
inductive RenderBranch where
  | listEdit
  | singleEdit
  | listRender
  | singleRender
  | unknown
  deriving Repr, DecidableEq

/-- The `switch` in `Render` dispatching on the resolved view/action. -/
def renderDispatch (view action : String) : RenderBranch :=
  if view = "list" ∧ action = "edit" then .listEdit
  else if view = "single" ∧ action = "edit" then .singleEdit
  else if view = "list" ∧ action = "render" then .listRender
  else if view = "single" ∧ action = "render" then .singleRender
  else .unknown

/-- The four view/action pairs the spec names. -/
def fourModes : List (String × String) :=
  [("list", "render"), ("list", "edit"), ("single", "render"), ("single", "edit")]

/-! ## Record store

The SQLite tables `records(id, type, created_at, updated_at)` and
`record_fields(record_id, bind_key, value)` (primary key
`(record_id, bind_key)`) become explicit lists; `nextId` models the
autoincrement counter and `now` models `CURRENT_TIMESTAMP`.  Every SQL
statement of the source is translated row-by-row; `Except` carries the
error returns. -/

/-- A `records` row. -/
structure RecRow where
  id : Int
  rtype : String
  createdAt : Nat
  updatedAt : Nat
  deriving Repr, DecidableEq

/-- A `record_fields` row. -/
structure FieldRow where
  recordId : Int
  bindKey : String
  value : String
  deriving Repr, DecidableEq

/-- The store state. -/
structure Store where
  recs : List RecRow
  flds : List FieldRow
  nextId : Int
  now : Nat
  deriving Repr, DecidableEq

/-- The `WHERE id = ? [AND type = ?]` predicate shared by the record
mutations (`type` scoping only when the type argument is non-empty). -/
def matchesRec (recordID : Int) (contentType : String) (r : RecRow) : Bool :=
  r.id == recordID && (contentType == "" || r.rtype == contentType)

/-- A fetched record (`record` struct). -/
structure Rec where
  ID : Int
  Fields : List (String × String)
  deriving Repr, DecidableEq

/-- `upsertFields`: one `INSERT INTO record_fields` per value; the
`(record_id, bind_key)` primary key makes a duplicate insert fail,
aborting the transaction. -/
def upsertFields (flds : List FieldRow) (recordID : Int) :
    List (String × String) → Except String (List FieldRow)
  | [] => .ok flds
  | (key, value) :: rest =>
    if flds.any (fun f => f.recordId == recordID && f.bindKey == key) then
      .error "UNIQUE constraint failed: record_fields.record_id, record_fields.bind_key"
    else upsertFields (flds ++ [⟨recordID, key, value⟩]) recordID rest

/-- `createRecord`: insert a `records` row, then the field rows, in one
transaction; returns the fresh id. -/
def createRecord (s : Store) (contentType : String) (values : List (String × String)) :
    Except String (Int × Store) :=
  let recordID := s.nextId
  match upsertFields s.flds recordID values with
  | .error e => .error e
  | .ok flds =>
    .ok (recordID,
      { s with
        recs := s.recs ++ [⟨recordID, contentType, s.now, s.now⟩]
        flds := flds
        nextId := recordID + 1 })

/-- `updateRecord`: touch the record's `updated_at` (type-scoped when the
type is non-empty; zero matched rows is not an error), delete all its
field rows, and re-insert the supplied values, in one transaction. -/
def updateRecord (s : Store) (recordID : Int) (contentType : String)
    (values : List (String × String)) : Except String Store :=
  let recs := s.recs.map fun r =>
    if matchesRec recordID contentType r then { r with updatedAt := s.now } else r
  let flds := s.flds.filter fun f => !(f.recordId == recordID)
  match upsertFields flds recordID values with
  | .error e => .error e
  | .ok flds' => .ok { s with recs := recs, flds := flds' }

/-- `updateRecordField`: id/bind-key validity checks, type-scoped
timestamp touch whose zero-rows-affected case is the explicit
`record not found` failure, then an `UPDATE` of the single field row
falling back to `INSERT` when no row existed. -/
def updateRecordField (s : Store) (recordID : Int) (contentType : String)
    (bindKey : String) (value : String) : Except String Store :=
  if recordID == 0 then .error "record id is required"
  else if goTrim bindKey = "" then .error "bind key is required"
  else
    let affected := s.recs.countP fun r => matchesRec recordID contentType r
    if affected == 0 then .error "record not found"
    else
      let recs := s.recs.map fun r =>
        if matchesRec recordID contentType r then { r with updatedAt := s.now } else r
      let fldAffected := s.flds.countP fun f => f.recordId == recordID && f.bindKey == bindKey
      let flds := s.flds.map fun f =>
        if f.recordId == recordID && f.bindKey == bindKey then { f with value := value } else f
      let flds := if fldAffected == 0 then flds ++ [⟨recordID, bindKey, value⟩] else flds
      .ok { s with recs := recs, flds := flds }

/-- `deleteRecord`: delete the record's field rows, then the record row
(type-scoped when the type is non-empty); no row count is checked. -/
def deleteRecord (s : Store) (recordID : Int) (contentType : String) : Except String Store :=
  let flds := s.flds.filter fun f => !(f.recordId == recordID)
  let recs := s.recs.filter fun r => !(matchesRec recordID contentType r)
  .ok { s with flds := flds, recs := recs }

/-- First-occurrence-wins key dedup (the `if _, exists := fields[key]`
guard of `fetchRecordFields`). -/
def dedupFirst (seen : List String) : List (String × String) → List (String × String)
  | [] => []
  | (k, v) :: rest =>
    if seen.contains k then dedupFirst seen rest
    else (k, v) :: dedupFirst (k :: seen) rest

/-- `fetchRecordFields`: `SELECT bind_key, value FROM record_fields WHERE
record_id = ?`, scanned into a map with first occurrence winning. -/
def fetchRecordFields (s : Store) (recordID : Int) : List (String × String) :=
  dedupFirst [] ((s.flds.filter fun f => f.recordId == recordID).map fun f => (f.bindKey, f.value))

/-- Go map read over a fetched field map (`record.Fields[bindKey]`),
first occurrence winning as in `assocLookup`. -/
def fieldLookup (l : List (String × String)) (k : String) : Option String :=
  match l with
  | [] => none
  | (k', v) :: rest => if k' = k then some v else fieldLookup rest k

/-- `fetchRecordByID`: id validity check, type-scoped existence check
(`sql.ErrNoRows` when no row matches), then the field fetch. -/
def fetchRecordByID (s : Store) (recordID : Int) (contentType : String) : Except String Rec :=
  if recordID == 0 then .error "record id is required"
  else
    match (s.recs.filter fun r => matchesRec recordID contentType r).head? with
    | none => .error "sql: no rows in result set"
    | some r => .ok ⟨r.id, fetchRecordFields s r.id⟩

/-- `countRecords`: total count, or type-scoped count when the trimmed
type is non-empty. -/
def countRecords (s : Store) (contentType : String) : Nat :=
  if goTrim contentType = "" then s.recs.length
  else (s.recs.filter fun r => r.rtype == contentType).length

/-! ## Seeding -/

/-- `fmt.Sprintf("%v", v)` for the values the tree can hold (Go prints
maps with sorted keys; sequences space-separated in brackets). -/
def insertSortedEntry (x : String × String) : List (String × String) → List (String × String)
  | [] => [x]
  | y :: rest => if x.1 ≤ y.1 then x :: y :: rest else y :: insertSortedEntry x rest

/-- Insertion sort by key for `goFormat`'s map printing. -/
def sortEntries : List (String × String) → List (String × String)
  | [] => []
  | x :: rest => insertSortedEntry x (sortEntries rest)

/-- Space-separated concatenation. -/
def spaceSep : List String → String
  | [] => ""
  | [x] => x
  | x :: rest => x ++ " " ++ spaceSep rest

mutual

/-- `fmt.Sprintf("%v", v)` over tree values. -/
def goFormat : GoVal → String
  | .str s => s
  | .int n => toString n
  | .bool b => if b then "true" else "false"
  | .vmap entries => "map[" ++ spaceSep ((sortEntries (goFormatEntries entries)).map fun kv => kv.1 ++ ":" ++ kv.2) ++ "]"
  | .vlist items => "[" ++ spaceSep (goFormatList items) ++ "]"

/-- `goFormat` over map entries. -/
def goFormatEntries : List (String × GoVal) → List (String × String)
  | [] => []
  | (k, v) :: rest => (k, goFormat v) :: goFormatEntries rest

/-- `goFormat` over sequence items. -/
def goFormatList : List GoVal → List String
  | [] => []
  | v :: rest => goFormat v :: goFormatList rest

end

/-- `defaultValuesFromTemplate`: for every bind, the formatted value at
its bound path in the template, or `""` when the path does not resolve. -/
def defaultValuesFromTemplate (template : Node) (binds : BindList) : List (String × String) :=
  binds.map fun kv =>
    (kv.1,
      match getAtPath (.vmap template) kv.2.Path with
      | some v => goFormat v
      | none => "")

/-- `createRecordFromTemplate`: create one record from the template's
current in-place values at the bound paths. -/
def createRecordFromTemplate (s : Store) (contentType : String) (template : Node)
    (binds : BindList) : Except String (Int × Store) :=
  createRecord s contentType (defaultValuesFromTemplate template binds)

/-- `ensureSeed`: create one record from the template only when the type
currently has zero records. -/
def ensureSeed (s : Store) (template : Node) (binds : BindList) (contentType : String) :
    Except String Store :=
  if countRecords s contentType > 0 then .ok s
  else
    match createRecordFromTemplate s contentType template binds with
    | .error e => .error e
    | .ok (_, s') => .ok s'

/-! ## Inline-edit protocol handler

`handleInlineUpdate` is embedded over an abstracted request: the HTTP
plumbing (`parseInlinePayload`, `resolveRecordID`'s context lookup,
`hasFileUpload`, `saveUploadFile`) is represented by oracle inputs
carrying those calls' results, while every branch of the handler itself
is translated.  `writeInlineJSON`'s status write plus JSON body become
an `InlineResponse`; the `(handled, response)` pair of the source is
returned together with the resulting store state (the store changes
exactly when `updateRecordField` is applied). -/

/-- `inlineUpdatePayload`. -/
structure InlinePayload where
  Inline : String
  RecordID : String
  Bind : String
  Value : String
  deriving Repr, DecidableEq

/-- The request as the handler observes it. -/
structure InlineRequest where
  /-- `req != nil` -/
  present : Bool
  /-- `req.Method` -/
  method : String
  /-- outcome of `parseInlinePayload(req, ctx, fields, errors)` -/
  payload : Except String InlinePayload
  /-- `req.Header.Get("Content-Type")` -/
  contentTypeHeader : String
  /-- `resolveRecordID(ctx, resolveRecordParam(fields))` -/
  ctxRecordID : Int
  /-- `hasFileUpload(req, "file", bindKey)` -/
  hasFile : Bool
  /-- outcome of `saveUploadFile(req, "file", uploadDir)` -/
  saveFile : Except String String
  /-- outcome of `saveUploadFile(req, bindKey, uploadDir)` -/
  saveBind : Except String String
  deriving Repr

/-- A `writeInlineJSON` response: HTTP status plus JSON object body. -/
structure InlineResponse where
  status : Nat
  body : List (String × String)
  deriving Repr, DecidableEq

/-- `resolveUploadDir`: trimmed `upload_dir`, falling back to `upload`. -/
def resolveUploadDir (fields : Fields) : String :=
  if goTrim fields.UploadDir ≠ "" then goTrim fields.UploadDir
  else if goTrim fields.Upload ≠ "" then goTrim fields.Upload
  else ""

/-- `handleInlineUpdate(ctx, db, contentType, binds, fields, template)`:
`(false, none)` models the declined `(false, nil)` return (fall through
to normal rendering), `(true, some resp)` a handled request. -/
def handleInlineUpdate (req : InlineRequest) (s : Store) (contentType : String)
    (binds : BindList) (fields : Fields) (template : Node) :
    Bool × Option InlineResponse × Store :=
  if !req.present || req.method ≠ "POST" then (false, none, s)
  else
    match req.payload with
    | .error _ => (true, some ⟨400, [("error", "invalid inline payload")]⟩, s)
    | .ok payload =>
      if !parseBoolFlag payload.Inline then (false, none, s)
      else
        let bindKey := goTrim payload.Bind
        if bindKey = "" then (true, some ⟨400, [("error", "bind is required")]⟩, s)
        else if (bindLookup binds bindKey).isNone then
          if hasBoundaryPlugin (.vmap template) then (false, none, s)
          else (true, some ⟨400, [("error", "unknown bind")]⟩, s)
        else
          let recordID := parseRecordID (goTrim payload.RecordID)
          let recordID := if recordID == 0 then req.ctxRecordID else recordID
          if recordID == 0 then (true, some ⟨400, [("error", "record_id is required")]⟩, s)
          else
            let multipartValue : Except InlineResponse String :=
              if goStartsWith req.contentTypeHeader "multipart/form-data" then
                let uploadDir := resolveUploadDir fields
                if uploadDir = "" && req.hasFile then
                  .error ⟨400, [("error", "upload_dir is required for file uploads")]⟩
                else if uploadDir ≠ "" then
                  match req.saveFile with
                  | .error _ => .error ⟨400, [("error", "upload failed")]⟩
                  | .ok path =>
                    if path = "" then
                      match req.saveBind with
                      | .error _ => .error ⟨400, [("error", "upload failed")]⟩
                      | .ok path2 =>
                        if path2 ≠ "" then .ok path2 else .ok payload.Value
                    else .ok path
                else .ok payload.Value
              else .ok payload.Value
            match multipartValue with
            | .error resp => (true, some resp, s)
            | .ok value =>
              match updateRecordField s recordID contentType bindKey value with
              | .error _ => (true, some ⟨500, [("error", "update failed")]⟩, s)
              | .ok s' =>
                (true,
                  some ⟨200,
                    [("status", "ok"), ("record_id", toString recordID),
                      ("bind", bindKey), ("value", value)]⟩,
                  s')


/-! ## Lemmas -/

/-- Segments that trim to empty are skipped by the `setAtPath` loop, and a
walk that never reaches a non-empty last segment returns `false`. -/
theorem setParts_all_empty (parts : List String)
    (h : ∀ part ∈ parts, goTrim part = "") (t v : GoVal) :
    setParts t parts v = none := by
  induction parts with
  | nil => rfl
  | cons p rest ih =>
    have hp : goTrim p = "" := h p (by simp)
    simp only [setParts, hp, if_pos]
    exact ih fun q hq => h q (List.mem_cons_of_mem _ hq)

/-- `upsertFields` succeeds and appends the rows in order whenever no
existing row collides with the keys being inserted and the keys are
pairwise distinct. -/
theorem upsertFields_ok (recordID : Int) :
    ∀ (values : List (String × String)) (flds : List FieldRow),
      (∀ f ∈ flds, f.recordId = recordID → f.bindKey ∉ values.map Prod.fst) →
      (values.map Prod.fst).Nodup →
      upsertFields flds recordID values =
        .ok (flds ++ values.map fun kv => ⟨recordID, kv.1, kv.2⟩) := by
  intro values
  induction values with
  | nil => intro flds _ _; simp [upsertFields]
  | cons kv rest ih =>
    intro flds hdisj hnodup
    obtain ⟨k, v⟩ := kv
    have hany : (flds.any fun f => f.recordId == recordID && f.bindKey == k) = false := by
      rw [List.any_eq_false]
      intro f hf
      simp only [Bool.and_eq_true, beq_iff_eq, not_and]
      intro hrid hbk
      exact hdisj f hf hrid (by simp [hbk])
    have hk : k ∉ rest.map Prod.fst := by
      have := hnodup
      simp only [List.map_cons, List.nodup_cons] at this
      exact this.1
    have hdisj' : ∀ f ∈ flds ++ [⟨recordID, k, v⟩], f.recordId = recordID →
        f.bindKey ∉ rest.map Prod.fst := by
      intro f hf hrid
      rcases List.mem_append.mp hf with hl | hr
      · have := hdisj f hl hrid
        simp only [List.map_cons, List.mem_cons, not_or] at this
        exact this.2
      · simp only [List.mem_singleton] at hr
        subst hr
        exact hk
    have hnodup' : (rest.map Prod.fst).Nodup := by
      simp only [List.map_cons, List.nodup_cons] at hnodup
      exact hnodup.2
    simp only [upsertFields, hany, Bool.false_eq_true, if_false]
    rw [ih (flds ++ [FieldRow.mk recordID k v]) hdisj' hnodup']
    simp

/-- `matchesRec` reads only `id` and `rtype`, so the timestamp touch
leaves it unchanged. -/
theorem matchesRec_touch (rid : Int) (ct : String) (r : RecRow) (n : Nat) :
    matchesRec rid ct { r with updatedAt := n } = matchesRec rid ct r := rfl

/-- A record matching the shared `WHERE` predicate has the queried id. -/
theorem matchesRec_id {rid : Int} {ct : String} {r : RecRow}
    (h : matchesRec rid ct r = true) : r.id = rid := by
  simp only [matchesRec, Bool.and_eq_true, beq_iff_eq] at h
  exact h.1

/-- `head?` of a filtered list, given some element satisfies the filter. -/
theorem filter_head_exists {α} (p : α → Bool) (l : List α)
    (h : ∃ x ∈ l, p x = true) : ∃ y, (l.filter p).head? = some y ∧ p y = true := by
  induction l with
  | nil => simp at h
  | cons a rest ih =>
    by_cases hp : p a = true
    · exact ⟨a, by simp [List.filter_cons, hp], hp⟩
    · rcases h with ⟨x, hx, hpx⟩
      rcases List.mem_cons.mp hx with hxa | hxr
      · subst hxa; exact absurd hpx hp
      · have hrec := ih ⟨x, hxr, hpx⟩
        simpa [List.filter_cons, hp] using hrec

/-- `dedupFirst` is the identity when the keys are pairwise distinct and
disjoint from the seen set. -/
theorem dedupFirst_eq_self :
    ∀ (l : List (String × String)) (seen : List String),
      (l.map Prod.fst).Nodup → (∀ kv ∈ l, kv.1 ∉ seen) → dedupFirst seen l = l := by
  intro l
  induction l with
  | nil => intro seen _ _; rfl
  | cons kv rest ih =>
    intro seen hnodup hdisj
    obtain ⟨k, v⟩ := kv
    have hk : k ∉ seen := hdisj (k, v) (by simp)
    have hcontains : seen.contains k = false := by simpa using hk
    have hknotin : k ∉ rest.map Prod.fst := by
      simp only [List.map_cons, List.nodup_cons] at hnodup
      exact hnodup.1
    have hrest : dedupFirst (k :: seen) rest = rest := by
      refine ih (k :: seen) ?_ ?_
      · simp only [List.map_cons, List.nodup_cons] at hnodup
        exact hnodup.2
      · intro kv hkv
        simp only [List.mem_cons, not_or]
        constructor
        · intro hkk
          exact hknotin (hkk ▸ List.mem_map_of_mem Prod.fst hkv)
        · exact hdisj kv (List.mem_cons_of_mem _ hkv)
    simp only [dedupFirst, hcontains, Bool.false_eq_true, if_false, hrest]

/-- The store state produced by a successful `updateRecord`. -/
theorem updateRecord_ok (s : Store) (rid : Int) (ctype : String)
    (vals : List (String × String)) (hnodup : (vals.map Prod.fst).Nodup) :
    updateRecord s rid ctype vals = .ok
      { s with
        recs := s.recs.map fun r =>
          if matchesRec rid ctype r then { r with updatedAt := s.now } else r
        flds := (s.flds.filter fun f => !(f.recordId == rid)) ++
          vals.map fun kv => ⟨rid, kv.1, kv.2⟩ } := by
  have hdisj2 : ∀ f ∈ (s.flds.filter fun f => !(f.recordId == rid)),
      f.recordId = rid → f.bindKey ∉ vals.map Prod.fst := by
    intro f hf hrid
    have hmem := List.of_mem_filter hf
    simp only [Bool.not_eq_eq_eq_not, Bool.not_true, beq_eq_false_iff_ne, ne_eq] at hmem
    exact absurd hrid hmem
  simp only [updateRecord]
  rw [upsertFields_ok rid vals _ hdisj2 hnodup]

/-- `fieldLookup` over an append scans left to right. -/
theorem fieldLookup_append (a b : List (String × String)) (k : String) :
    fieldLookup (a ++ b) k =
      match fieldLookup a k with
      | some v => some v
      | none => fieldLookup b k := by
  induction a with
  | nil => rfl
  | cons kv rest ih =>
    obtain ⟨k', v⟩ := kv
    by_cases h : k' = k
    · simp [fieldLookup, h]
    · simp [fieldLookup, h, ih]

/-- `fieldLookup` ignores the first-wins dedup of `fetchRecordFields`. -/
theorem fieldLookup_dedupFirst :
    ∀ (l : List (String × String)) (seen : List String) (k : String),
      fieldLookup (dedupFirst seen l) k =
        if k ∈ seen then none else fieldLookup l k := by
  intro l
  induction l with
  | nil =>
    intro seen k
    by_cases h : k ∈ seen <;> simp [dedupFirst, fieldLookup, h]
  | cons kv rest ih =>
    intro seen k
    obtain ⟨k', v⟩ := kv
    by_cases hc : seen.contains k' = true
    · have hk'mem : k' ∈ seen := by simpa using hc
      rw [show dedupFirst seen ((k', v) :: rest) = dedupFirst seen rest from by
        simp only [dedupFirst, hc, if_true]]
      rw [ih seen k]
      by_cases hks : k ∈ seen
      · simp [hks]
      · have hne : k' ≠ k := fun h => hks (h ▸ hk'mem)
        simp [hks, fieldLookup, hne]
    · have hcf : seen.contains k' = false := by simpa using hc
      have hk'mem : k' ∉ seen := by simpa using hc
      rw [show dedupFirst seen ((k', v) :: rest) = (k', v) :: dedupFirst (k' :: seen) rest from by
        simp only [dedupFirst, hcf, Bool.false_eq_true, if_false]]
      by_cases hkk : k' = k
      · subst hkk
        simp [fieldLookup, hk'mem]
      · simp only [fieldLookup, hkk, if_false]
        rw [ih (k' :: seen) k]
        by_cases hks : k ∈ seen
        · rw [if_pos (List.mem_cons_of_mem _ hks), if_pos hks]
        · rw [if_neg (fun h => (List.mem_cons.mp h).elim (fun he => hkk he.symm) hks),
            if_neg hks]

/-- Looking a bind key up through `fetchRecordFields` is looking it up in
the raw filtered field rows. -/
theorem fieldLookup_fetchRecordFields (s : Store) (rid : Int) (k : String) :
    fieldLookup (fetchRecordFields s rid) k =
      fieldLookup ((s.flds.filter fun f => f.recordId == rid).map
        fun f => (f.bindKey, f.value)) k := by
  rw [fetchRecordFields, fieldLookup_dedupFirst]
  simp

/-- The value-only row update of `updateRecordField` preserves `recordId`. -/
theorem rowUpdate_recordId (rid : Int) (bk v : String) (f : FieldRow) :
    ((if f.recordId == rid && f.bindKey == bk then { f with value := v } else f) : FieldRow).recordId
      = f.recordId := by
  by_cases hc : (f.recordId == rid && f.bindKey == bk) = true <;> simp [hc]

/-- Filtering by record id commutes with the value-only row update. -/
theorem filter_rowUpdate (rid : Int) (bk v : String) (flds : List FieldRow) (rid' : Int) :
    ((flds.map fun f =>
        if f.recordId == rid && f.bindKey == bk then { f with value := v } else f).filter
          fun f => f.recordId == rid')
      = (flds.filter fun f => f.recordId == rid').map fun f =>
          if f.recordId == rid && f.bindKey == bk then { f with value := v } else f := by
  rw [List.filter_map]
  congr 1
  refine List.filter_congr ?_
  intro f _
  simp only [Function.comp_apply]
  rw [rowUpdate_recordId]

/-- Rows of a different record are untouched by the value-only update. -/
theorem rowUpdate_other_record (rid : Int) (bk v : String) (flds : List FieldRow)
    (rid' : Int) (hne : rid' ≠ rid) :
    ((flds.filter fun f => f.recordId == rid').map fun f =>
        if f.recordId == rid && f.bindKey == bk then { f with value := v } else f)
      = flds.filter fun f => f.recordId == rid' := by
  have h := fun (f : FieldRow) (hf : f ∈ flds.filter fun f => f.recordId == rid') => by
    have hmem := List.of_mem_filter hf
    have hr : f.recordId = rid' := by simpa using hmem
    have hrb : (f.recordId == rid) = false := by
      rw [hr]
      exact beq_eq_false_iff_ne.mpr hne
    have hc : (f.recordId == rid && f.bindKey == bk) = false := by simp [hrb]
    exact show (if f.recordId == rid && f.bindKey == bk then { f with value := v } else f) = f by
      simp [hc]
  calc ((flds.filter fun f => f.recordId == rid').map fun f =>
          if f.recordId == rid && f.bindKey == bk then { f with value := v } else f)
      = (flds.filter fun f => f.recordId == rid').map id := List.map_congr_left h
    _ = flds.filter fun f => f.recordId == rid' := List.map_id _

/-- Over the rows of the queried record, the value-only update acts on the
projected `(bind_key, value)` pairs as a pure value replacement at `bk`. -/
theorem pairs_rowUpdate (rid : Int) (bk v : String) (flds : List FieldRow) :
    (((flds.filter fun f => f.recordId == rid).map fun f =>
        if f.recordId == rid && f.bindKey == bk then { f with value := v } else f).map
          fun f => (f.bindKey, f.value))
      = ((flds.filter fun f => f.recordId == rid).map fun f => (f.bindKey, f.value)).map
          fun kv => if kv.1 = bk then (kv.1, v) else kv := by
  rw [List.map_map, List.map_map]
  refine List.map_congr_left ?_
  intro f hf
  have hr : (f.recordId == rid) = true := by simpa using List.of_mem_filter hf
  by_cases hb : f.bindKey = bk
  · simp [Function.comp, hr, hb]
  · simp [Function.comp, hr, hb]

/-- `fieldLookup` through the pure value replacement: other keys unchanged. -/
theorem fieldLookup_valueReplace_other (bk v : String) :
    ∀ (l : List (String × String)) (k : String), k ≠ bk →
      fieldLookup (l.map fun kv => if kv.1 = bk then (kv.1, v) else kv) k
        = fieldLookup l k := by
  intro l
  induction l with
  | nil => intro k _; rfl
  | cons kv rest ih =>
    intro k hk
    obtain ⟨k', w⟩ := kv
    simp only [List.map_cons]
    by_cases hb : k' = bk
    · subst hb
      rw [if_pos rfl]
      have hne : k' ≠ k := fun h => hk h.symm
      simp only [fieldLookup, if_neg hne]
      exact ih k hk
    · rw [if_neg hb]
      simp only [fieldLookup]
      by_cases hkk : k' = k
      · rw [if_pos hkk, if_pos hkk]
      · rw [if_neg hkk, if_neg hkk]
        exact ih k hk

/-- `fieldLookup` through the pure value replacement: the replaced key
reads back the new value whenever any row for it existed. -/
theorem fieldLookup_valueReplace_hit (bk v : String) :
    ∀ (l : List (String × String)) (w : String), fieldLookup l bk = some w →
      fieldLookup (l.map fun kv => if kv.1 = bk then (kv.1, v) else kv) bk = some v := by
  intro l
  induction l with
  | nil => intro w h; exact absurd h (by simp [fieldLookup])
  | cons kv rest ih =>
    intro w h
    obtain ⟨k', w'⟩ := kv
    simp only [List.map_cons]
    by_cases hb : k' = bk
    · subst hb
      rw [if_pos rfl]
      simp [fieldLookup]
    · rw [if_neg hb]
      simp only [fieldLookup, if_neg hb] at h ⊢
      exact ih w h

/-- A present key always resolves to some value. -/
theorem fieldLookup_isSome_of_mem :
    ∀ (l : List (String × String)) (k : String), k ∈ l.map Prod.fst →
      ∃ w, fieldLookup l k = some w := by
  intro l
  induction l with
  | nil => intro k h; simp at h
  | cons kv rest ih =>
    intro k h
    obtain ⟨k', w⟩ := kv
    by_cases hkk : k' = k
    · exact ⟨w, by simp [fieldLookup, hkk]⟩
    · have hmem : k ∈ rest.map Prod.fst := by
        simp only [List.map_cons, List.mem_cons] at h
        rcases h with he | hr
        · exact absurd he.symm hkk
        · exact hr
      obtain ⟨w', hw⟩ := ih k hmem
      exact ⟨w', by simpa [fieldLookup, hkk] using hw⟩

/-- Without a matching row, looking up the bind key among the record's
rows yields nothing. -/
theorem fieldLookup_miss (rid : Int) (bk : String) :
    ∀ flds : List FieldRow, (∀ f ∈ flds, ¬(f.recordId = rid ∧ f.bindKey = bk)) →
      fieldLookup ((flds.filter fun f => f.recordId == rid).map
        fun f => (f.bindKey, f.value)) bk = none := by
  intro flds
  induction flds with
  | nil => intro _; rfl
  | cons f rest ih =>
    intro hmiss
    have hrest := fun x hx => hmiss x (List.mem_cons_of_mem _ hx)
    by_cases hr : (f.recordId == rid) = true
    · have hbne : f.bindKey ≠ bk := by
        intro hbe
        exact hmiss f (by simp) ⟨by simpa using hr, hbe⟩
      simp only [List.filter_cons, hr, if_true, List.map_cons, fieldLookup, hbne, if_false]
      exact ih hrest
    · have hrf : (f.recordId == rid) = false := by simpa using hr
      simp only [List.filter_cons, hrf, Bool.false_eq_true, if_false]
      exact ih hrest

/-- Without a matching `(record_id, bind_key)` row the value-only update is
the identity on the field rows. -/
theorem rowUpdate_miss_id (rid : Int) (bk v : String) (flds : List FieldRow)
    (hmiss : ∀ f ∈ flds, ¬(f.recordId = rid ∧ f.bindKey = bk)) :
    (flds.map fun f =>
        if f.recordId == rid && f.bindKey == bk then { f with value := v } else f)
      = flds := by
  have h : ∀ f ∈ flds,
      (if f.recordId == rid && f.bindKey == bk then { f with value := v } else f) = f := by
    intro f hf
    have hc : (f.recordId == rid && f.bindKey == bk) = false := by
      by_cases hr : (f.recordId == rid) = true
      · have hbne : f.bindKey ≠ bk := fun hb => hmiss f hf ⟨by simpa using hr, hb⟩
        simp [hbne]
      · have hrf : (f.recordId == rid) = false := by simpa using hr
        simp [hrf]
    simp [hc]
  calc (flds.map fun f =>
          if f.recordId == rid && f.bindKey == bk then { f with value := v } else f)
      = flds.map id := List.map_congr_left h
    _ = flds := List.map_id _

/-- The timestamp touch preserves every record's id and type. -/
theorem touch_preserves_id_type (s : Store) (rid : Int) (ctype : String) :
    (s.recs.map fun r =>
        if matchesRec rid ctype r then { r with updatedAt := s.now } else r).map
      (fun r => (r.id, r.rtype)) = s.recs.map fun r => (r.id, r.rtype) := by
  rw [List.map_map]
  refine List.map_congr_left ?_
  intro r _
  by_cases h : matchesRec rid ctype r = true <;> simp [h]

/-- Looking up the key just written by a Go map write yields the value. -/
theorem assocLookup_assocSet (l : List (String × GoVal)) (k : String) (v : GoVal) :
    assocLookup (assocSet l k v) k = some v := by
  induction l with
  | nil => simp [assocSet, assocLookup]
  | cons kv rest ih =>
    obtain ⟨k', v'⟩ := kv
    by_cases h : k' = k
    · simp [assocSet, assocLookup, h]
    · simp [assocSet, assocLookup, h, ih]

/-- A parsed list index is in bounds. -/
theorem listIdx_lt (len : Nat) (part : String) (i : Nat)
    (h : listIdx len part = some i) : i < len := by
  simp only [listIdx] at h
  cases hpi : goParseInt part with
  | none => simp [hpi] at h
  | some idx =>
    simp only [hpi] at h
    by_cases hb : 0 ≤ idx ∧ idx < (len : Int)
    · rw [if_pos hb] at h
      have hi : idx.toNat = i := Option.some.inj h
      obtain ⟨hb1, hb2⟩ := hb
      omega
    · rw [if_neg hb] at h
      exact absurd h (by simp)

/-- Setting a list element then reading it back with a default. -/
theorem getD_set_self (l : List GoVal) (i : Nat) (v d : GoVal) (h : i < l.length) :
    (l.set i v).getD i d = v := by
  rw [List.getD_eq_getElem?_getD, List.getElem?_set_self (by simpa using h)]
  rfl

/-- A successful `setAtPath` walk, replayed by `getAtPath` over the same
segment list, reads back the written value. -/
theorem setParts_getParts :
    ∀ (parts : List String) (cur v cur' : GoVal),
      setParts cur parts v = some cur' → getParts cur' parts = some v := by
  intro parts
  induction parts with
  | nil =>
    intro cur v cur' h
    exact absurd h (by simp [setParts])
  | cons part rest ih =>
    intro cur v cur' h
    simp only [setParts] at h
    simp only [getParts]
    by_cases hp : goTrim part = ""
    · rw [if_pos hp] at h
      rw [if_pos hp]
      exact ih cur v cur' h
    · rw [if_neg hp] at h
      rw [if_neg hp]
      by_cases hrest : rest.isEmpty = true
      · rw [if_pos hrest] at h
        have hrest' : rest = [] := by simpa [List.isEmpty_iff] using hrest
        subst hrest'
        cases cur with
        | vmap entries =>
          have hcur' : cur' = .vmap (assocSet entries (goTrim part) v) := by
            simpa using h.symm
          subst hcur'
          show (match assocLookup (assocSet entries (goTrim part) v) (goTrim part) with
                | some child => getParts child []
                | none => none) = some v
          rw [assocLookup_assocSet]
          rfl
        | vlist items =>
          dsimp only at h
          cases hidx : listIdx items.length (goTrim part) with
          | none => rw [hidx] at h; exact absurd h (by simp)
          | some i =>
            rw [hidx] at h
            have hcur' : cur' = .vlist (items.set i v) := by simpa using h.symm
            subst hcur'
            show (match listIdx (items.set i v).length (goTrim part) with
                  | some j => getParts ((items.set i v).getD j (.str "")) []
                  | none => none) = some v
            rw [List.length_set, hidx]
            show getParts ((items.set i v).getD i (.str "")) [] = some v
            rw [getD_set_self items i v (.str "") (listIdx_lt items.length (goTrim part) i hidx)]
            rfl
        | str sv => exact absurd h (by simp)
        | int n => exact absurd h (by simp)
        | bool b => exact absurd h (by simp)
      · rw [if_neg hrest] at h
        cases cur with
        | vmap entries =>
          dsimp only at h
          cases hlook : assocLookup entries (goTrim part) with
          | none => rw [hlook] at h; exact absurd h (by simp)
          | some child =>
            rw [hlook] at h
            dsimp only at h
            cases hsp : setParts child rest v with
            | none => rw [hsp] at h; exact absurd h (by simp)
            | some c =>
              rw [hsp] at h
              have hcur' : cur' = .vmap (assocSet entries (goTrim part) c) := by
                simpa using h.symm
              subst hcur'
              show (match assocLookup (assocSet entries (goTrim part) c) (goTrim part) with
                    | some child => getParts child rest
                    | none => none) = some v
              rw [assocLookup_assocSet]
              exact ih child v c hsp
        | vlist items =>
          dsimp only at h
          cases hidx : listIdx items.length (goTrim part) with
          | none => rw [hidx] at h; exact absurd h (by simp)
          | some i =>
            rw [hidx] at h
            dsimp only at h
            cases hsp : setParts (items.getD i (.str "")) rest v with
            | none => rw [hsp] at h; exact absurd h (by simp)
            | some c =>
              rw [hsp] at h
              have hcur' : cur' = .vlist (items.set i c) := by simpa using h.symm
              subst hcur'
              show (match listIdx (items.set i c).length (goTrim part) with
                    | some j => getParts ((items.set i c).getD j (.str "")) rest
                    | none => none) = some v
              rw [List.length_set, hidx]
              show getParts ((items.set i c).getD i (.str "")) rest = some v
              rw [getD_set_self items i c (.str "") (listIdx_lt items.length (goTrim part) i hidx)]
              exact ih _ v c hsp
        | str sv => exact absurd h (by simp)
        | int n => exact absurd h (by simp)
        | bool b => exact absurd h (by simp)

/-- `eraseLists` preserves scalar classification for `parseBoolish`. -/
theorem parseBoolish_eraseLists (v : GoVal) :
    parseBoolish (eraseLists v) = parseBoolish v := by
  cases v <;> rfl

/-- `eraseLists` commutes with map lookup. -/
theorem assocLookup_eraseLists (l : List (String × GoVal)) (k : String) :
    assocLookup (eraseListsEntries l) k = (assocLookup l k).map eraseLists := by
  induction l with
  | nil => rfl
  | cons kv rest ih =>
    obtain ⟨k', v⟩ := kv
    by_cases h : k' = k
    · simp [eraseListsEntries, assocLookup, h]
    · simp [eraseListsEntries, assocLookup, h, ih]

/-- `parseBoolishOpt` is unchanged by erasing sequences in the value. -/
theorem parseBoolishOpt_map_eraseLists (o : Option GoVal) :
    parseBoolishOpt (o.map eraseLists) = parseBoolishOpt o := by
  cases o with
  | none => rfl
  | some v => simp [parseBoolishOpt, parseBoolish_eraseLists]

/-- Boundary detection is unchanged by erasing sequences. -/
theorem isBoundaryPlugin_eraseLists (node : Node) :
    isBoundaryPlugin (eraseListsEntries node) = isBoundaryPlugin node := by
  unfold isBoundaryPlugin
  rw [assocLookup_eraseLists, assocLookup_eraseLists, assocLookup_eraseLists]
  have htype : (match Option.map eraseLists (assocLookup node "@type") with
      | some (GoVal.str s) => s
      | _ => "") =
      (match assocLookup node "@type" with
      | some (GoVal.str s) => s
      | _ => "") := by
    cases assocLookup node "@type" with
    | none => rfl
    | some v => cases v <;> rfl
  have hplug : (match Option.map eraseLists (assocLookup node "plugin") with
      | some (GoVal.str s) => s
      | _ => "") =
      (match assocLookup node "plugin" with
      | some (GoVal.str s) => s
      | _ => "") := by
    cases assocLookup node "plugin" with
    | none => rfl
    | some v => cases v <;> rfl
  have hdata : (match Option.map eraseLists (assocLookup node "data") with
      | some (GoVal.vmap data) =>
        parseBoolishOpt (assocLookup data "content_record_boundary") ||
          parseBoolishOpt (assocLookup data "boundary")
      | _ => false) =
      (match assocLookup node "data" with
      | some (GoVal.vmap data) =>
        parseBoolishOpt (assocLookup data "content_record_boundary") ||
          parseBoolishOpt (assocLookup data "boundary")
      | _ => false) := by
    cases assocLookup node "data" with
    | none => rfl
    | some v =>
      cases v with
      | vmap data =>
        show (parseBoolishOpt (assocLookup (eraseListsEntries data) "content_record_boundary") ||
            parseBoolishOpt (assocLookup (eraseListsEntries data) "boundary"))
          = (parseBoolishOpt (assocLookup data "content_record_boundary") ||
            parseBoolishOpt (assocLookup data "boundary"))
        rw [assocLookup_eraseLists, assocLookup_eraseLists,
          parseBoolishOpt_map_eraseLists, parseBoolishOpt_map_eraseLists]
      | str s => rfl
      | int n => rfl
      | bool b => rfl
      | vlist items => rfl
  rw [htype, hplug, hdata]

/-- The node's own `@bind` declaration is unchanged by erasing sequences. -/
theorem ownBind_eraseLists (node : Node) :
    ownBind (eraseListsEntries node) = ownBind node := by
  unfold ownBind
  rw [assocLookup_eraseLists]
  cases assocLookup node "@bind" with
  | none => rfl
  | some v =>
    cases v with
    | vmap bindMap =>
      show (let field := goTrim (match assocLookup (eraseListsEntries bindMap) "field" with
              | some (.str s) => s
              | _ => "")
            let bindPath := goTrim (match assocLookup (eraseListsEntries bindMap) "path" with
              | some (.str s) => s
              | _ => "")
            if field ≠ "" ∧ bindPath ≠ "" then some (field, bindPath) else none)
        = (let field := goTrim (match assocLookup bindMap "field" with
              | some (.str s) => s
              | _ => "")
            let bindPath := goTrim (match assocLookup bindMap "path" with
              | some (.str s) => s
              | _ => "")
            if field ≠ "" ∧ bindPath ≠ "" then some (field, bindPath) else none)
      rw [assocLookup_eraseLists, assocLookup_eraseLists]
      have hf : (match Option.map eraseLists (assocLookup bindMap "field") with
          | some (GoVal.str s) => s
          | _ => "") =
          (match assocLookup bindMap "field" with
          | some (GoVal.str s) => s
          | _ => "") := by
        cases assocLookup bindMap "field" with
        | none => rfl
        | some w => cases w <;> rfl
      have hp : (match Option.map eraseLists (assocLookup bindMap "path") with
          | some (GoVal.str s) => s
          | _ => "") =
          (match assocLookup bindMap "path" with
          | some (GoVal.str s) => s
          | _ => "") := by
        cases assocLookup bindMap "path" with
        | none => rfl
        | some w => cases w <;> rfl
      rw [hf, hp]
    | str s => rfl
    | int n => rfl
    | bool b => rfl
    | vlist items => rfl

/-- `bindInsert` is unchanged by erasing sequences in the node. -/
theorem bindInsert_eraseLists (binds : BindList) (node : Node) (path : String) :
    bindInsert binds (eraseListsEntries node) path = bindInsert binds node path := by
  unfold bindInsert
  rw [ownBind_eraseLists]

/-- The size of a map-entry value is smaller than the entry list. -/
theorem sizeOf_val_lt_entries {k : String} {value : GoVal}
    {entries : List (String × GoVal)} (h : (k, value) ∈ entries) :
    sizeOf value < sizeOf entries := by
  have h1 := List.sizeOf_lt_of_mem h
  have h2 : sizeOf (k, value) = 1 + sizeOf k + sizeOf value := rfl
  omega

/-- `collectBinds` never reads the contents of sequence nodes: erasing
every sequence in the tree leaves the collected Bind Index unchanged
(paired with list induction over the children loop). -/
theorem collectBindsVal_eraseLists :
    ∀ (n : Nat) (g : GoVal), sizeOf g = n → ∀ (path : String) (binds : BindList),
      collectBindsVal (eraseLists g) path binds = collectBindsVal g path binds := by
  intro n
  induction n using Nat.strong_induction_on with
  | _ n IH =>
    intro g hg path binds
    cases g with
    | vmap entries =>
      show collectBindsVal (.vmap (eraseListsEntries entries)) path binds
        = collectBindsVal (.vmap entries) path binds
      simp only [collectBindsVal]
      rw [bindInsert_eraseLists, isBoundaryPlugin_eraseLists]
      by_cases hb : isBoundaryPlugin entries = true
      · rw [if_pos hb, if_pos hb]
      · rw [if_neg hb, if_neg hb]
        have hchild : ∀ (l : List (String × GoVal)),
            (∀ k v, (k, v) ∈ l → (k, v) ∈ entries) → ∀ (b : BindList),
            collectBindsChildren (eraseListsEntries l) path b
              = collectBindsChildren l path b := by
          intro l
          induction l with
          | nil => intro _ b; rfl
          | cons kv rest ihl =>
            intro hsub b
            obtain ⟨k, v⟩ := kv
            show collectBindsChildren ((k, eraseLists v) :: eraseListsEntries rest) path b
              = collectBindsChildren ((k, v) :: rest) path b
            simp only [collectBindsChildren]
            have hv : collectBindsVal (eraseLists v)
                (if path = "" then k else path ++ "." ++ k) b
                = collectBindsVal v (if path = "" then k else path ++ "." ++ k) b := by
              have hlt : sizeOf v < n := by
                have := sizeOf_val_lt_entries (hsub k v (by simp))
                have hsz : sizeOf (GoVal.vmap entries) = 1 + sizeOf entries := by simp
                omega
              exact IH (sizeOf v) hlt v rfl _ b
            rw [hv]
            exact ihl (fun k' v' hm => hsub k' v' (List.mem_cons_of_mem _ hm)) _
        exact hchild entries (fun _ _ hm => hm) _
    | vlist items => rfl
    | str s => rfl
    | int nn => rfl
    | bool b => rfl

/-- Keys after `bindInsert` come from the accumulator or the node's own
declaration. -/
theorem bindKeys_bindInsert_sub (binds : BindList) (node : Node) (path f : String)
    (hf : f ∈ bindKeys (bindInsert binds node path)) :
    f ∈ bindKeys binds ∨ ∃ p, ownBind node = some (f, p) := by
  unfold bindInsert at hf
  cases h : ownBind node with
  | none => rw [h] at hf; exact .inl hf
  | some fp =>
    obtain ⟨fd, bp⟩ := fp
    rw [h] at hf
    dsimp only at hf
    by_cases hl : (bindLookup binds fd).isSome
    · rw [if_pos hl] at hf
      exact .inl hf
    · rw [if_neg hl] at hf
      simp only [bindKeys, List.map_append, List.map_cons, List.map_nil] at hf
      rcases List.mem_append.mp hf with h1 | h2
      · exact .inl h1
      · simp only [List.mem_singleton] at h2
        subst h2
        exact .inr ⟨bp, rfl⟩

/-- `bindInsert` preserves every key already present. -/
theorem bindKeys_bindInsert_mono (binds : BindList) (node : Node) (path f : String)
    (hf : f ∈ bindKeys binds) : f ∈ bindKeys (bindInsert binds node path) := by
  unfold bindInsert
  cases ownBind node with
  | none => exact hf
  | some fp =>
    obtain ⟨fd, bp⟩ := fp
    dsimp only
    by_cases hl : (bindLookup binds fd).isSome
    · rw [if_pos hl]
      exact hf
    · rw [if_neg hl]
      simp only [bindKeys, List.map_append]
      exact List.mem_append_left _ hf

/-- A key with a successful `bindLookup` is present. -/
theorem bindLookup_isSome_mem (binds : BindList) (k : String)
    (h : (bindLookup binds k).isSome = true) : k ∈ bindKeys binds := by
  induction binds with
  | nil => simp [bindLookup] at h
  | cons kv rest ih =>
    obtain ⟨k', t⟩ := kv
    by_cases hk : k' = k
    · simp [bindKeys, hk]
    · simp only [bindLookup, hk, if_false] at h
      simp only [bindKeys, List.map_cons, List.mem_cons]
      exact .inr (ih h)

/-- `collectBindsVal` only ever adds keys. -/
theorem collectBindsVal_mono :
    ∀ (n : Nat) (g : GoVal), sizeOf g = n → ∀ (path : String) (binds : BindList) (f : String),
      f ∈ bindKeys binds → f ∈ bindKeys (collectBindsVal g path binds) := by
  intro n
  induction n using Nat.strong_induction_on with
  | _ n IH =>
    intro g hg path binds f hf
    cases g with
    | vmap entries =>
      simp only [collectBindsVal]
      have hf1 := bindKeys_bindInsert_mono binds entries path f hf
      by_cases hb : isBoundaryPlugin entries = true
      · rw [if_pos hb]
        exact hf1
      · rw [if_neg hb]
        have hchild : ∀ (l : List (String × GoVal)),
            (∀ k v, (k, v) ∈ l → (k, v) ∈ entries) → ∀ (b : BindList),
            f ∈ bindKeys b → f ∈ bindKeys (collectBindsChildren l path b) := by
          intro l
          induction l with
          | nil => intro _ b hb'; exact hb'
          | cons kv rest ihl =>
            intro hsub b hb'
            obtain ⟨k, v⟩ := kv
            simp only [collectBindsChildren]
            refine ihl (fun k' v' hm => hsub k' v' (List.mem_cons_of_mem _ hm)) _ ?_
            by_cases hat : goStartsWith k "@" = true
            · rw [if_pos hat]
              exact hb'
            · rw [if_neg hat]
              have hlt : sizeOf v < n := by
                have := sizeOf_val_lt_entries (hsub k v (by simp))
                have hsz : sizeOf (GoVal.vmap entries) = 1 + sizeOf entries := by simp
                omega
              exact IH (sizeOf v) hlt v rfl _ _ f hb'
        exact hchild entries (fun _ _ hm => hm) _ hf1
    | vlist items => exact hf
    | str s => exact hf
    | int nn => exact hf
    | bool b => exact hf

/-- The children loop only ever adds keys. -/
theorem collectBindsChildren_mono (l : List (String × GoVal)) (path : String)
    (b : BindList) (f : String) (hf : f ∈ bindKeys b) :
    f ∈ bindKeys (collectBindsChildren l path b) := by
  induction l generalizing b with
  | nil => exact hf
  | cons kv rest ih =>
    obtain ⟨k, v⟩ := kv
    simp only [collectBindsChildren]
    refine ih _ ?_
    by_cases hat : goStartsWith k "@" = true
    · rw [if_pos hat]
      exact hf
    · rw [if_neg hat]
      exact collectBindsVal_mono (sizeOf v) v rfl _ _ f hf

/-- A reachable child declaration survives the whole children loop. -/
theorem collectBindsChildren_complete (f : String) :
    ∀ (l : List (String × GoVal)) (path : String) (b : BindList) (key : String) (value : GoVal),
      (key, value) ∈ l → goStartsWith key "@" = false →
      (∀ (path' : String) (b' : BindList), f ∈ bindKeys (collectBindsVal value path' b')) →
      f ∈ bindKeys (collectBindsChildren l path b) := by
  intro l
  induction l with
  | nil => intro path b key value hm; exact absurd hm (List.not_mem_nil _)
  | cons kv rest ih =>
    intro path b key value hm hat hval
    obtain ⟨k0, v0⟩ := kv
    rcases List.mem_cons.mp hm with hhead | hrest
    · obtain ⟨hk, hv⟩ := Prod.mk.inj hhead
      subst hk
      subst hv
      simp only [collectBindsChildren, hat, Bool.false_eq_true, if_false]
      exact collectBindsChildren_mono rest path _ f (hval _ b)
    · simp only [collectBindsChildren]
      exact ih path _ key value hrest hat hval

/-- Completeness: every traversal-reachable declaration appears in the
collected index. -/
theorem collectBindsVal_complete (entries : Node) (f : String)
    (h : BindReach entries f) :
    ∀ (path : String) (binds : BindList),
      f ∈ bindKeys (collectBindsVal (.vmap entries) path binds) := by
  induction h with
  | here node fd p hown =>
    intro path binds
    simp only [collectBindsVal]
    have hf : fd ∈ bindKeys (bindInsert binds node path) := by
      unfold bindInsert
      rw [hown]
      dsimp only
      by_cases hl : (bindLookup binds fd).isSome
      · rw [if_pos hl]
        exact bindLookup_isSome_mem binds fd hl
      · rw [if_neg hl]
        simp [bindKeys]
    by_cases hb : isBoundaryPlugin node = true
    · rw [if_pos hb]
      exact hf
    · rw [if_neg hb]
      exact collectBindsChildren_mono node path _ fd hf
  | child node key c fd hbf hmem hat hreach ihc =>
    intro path binds
    simp only [collectBindsVal]
    rw [if_neg (by simp [hbf])]
    exact collectBindsChildren_complete fd node path _ key (.vmap c) hmem hat ihc

/-- Soundness: every collected key is already present or reachable by the
boundary-respecting traversal. -/
theorem collectBindsVal_sound :
    ∀ (n : Nat) (g : GoVal), sizeOf g = n → ∀ (path : String) (binds : BindList) (f : String),
      f ∈ bindKeys (collectBindsVal g path binds) →
      f ∈ bindKeys binds ∨ ∃ entries, g = .vmap entries ∧ BindReach entries f := by
  intro n
  induction n using Nat.strong_induction_on with
  | _ n IH =>
    intro g hg path binds f hf
    cases g with
    | vmap entries =>
      simp only [collectBindsVal] at hf
      by_cases hb : isBoundaryPlugin entries = true
      · rw [if_pos hb] at hf
        rcases bindKeys_bindInsert_sub binds entries path f hf with h1 | ⟨p, h2⟩
        · exact .inl h1
        · exact .inr ⟨entries, rfl, .here entries f p h2⟩
      · rw [if_neg hb] at hf
        have hbf : isBoundaryPlugin entries = false := by simpa using hb
        have hchild : ∀ (l : List (String × GoVal)),
            (∀ k v, (k, v) ∈ l → (k, v) ∈ entries) → ∀ (b : BindList),
            f ∈ bindKeys (collectBindsChildren l path b) →
            f ∈ bindKeys b ∨ ∃ key c, (key, GoVal.vmap c) ∈ l ∧
              goStartsWith key "@" = false ∧ BindReach c f := by
          intro l
          induction l with
          | nil => intro _ b hres; exact .inl hres
          | cons kv rest ihl =>
            intro hsub b hres
            obtain ⟨k, v⟩ := kv
            simp only [collectBindsChildren] at hres
            rcases ihl (fun k' v' hm => hsub k' v' (List.mem_cons_of_mem _ hm)) _ hres with
              h1 | ⟨key, c, hm, hat, hr⟩
            · by_cases hat : goStartsWith k "@" = true
              · rw [if_pos hat] at h1
                exact .inl h1
              · rw [if_neg hat] at h1
                have hlt : sizeOf v < n := by
                  have := sizeOf_val_lt_entries (hsub k v (by simp))
                  have hsz : sizeOf (GoVal.vmap entries) = 1 + sizeOf entries := by simp
                  omega
                rcases IH (sizeOf v) hlt v rfl _ _ f h1 with h2 | ⟨c, hc, hr⟩
                · exact .inl h2
                · subst hc
                  exact .inr ⟨k, c, by simp, by simpa using hat, hr⟩
            · exact .inr ⟨key, c, List.mem_cons_of_mem _ hm, hat, hr⟩
        rcases hchild entries (fun _ _ hm => hm) _ hf with h1 | ⟨key, c, hm, hat, hr⟩
        · rcases bindKeys_bindInsert_sub binds entries path f h1 with h2 | ⟨p, h3⟩
          · exact .inl h2
          · exact .inr ⟨entries, rfl, .here entries f p h3⟩
        · exact .inr ⟨entries, rfl, .child entries key c f hbf hm hat hr⟩
    | vlist items => exact .inl hf
    | str s => exact .inl hf
    | int nn => exact .inl hf
    | bool b => exact .inl hf

/-! ## Claims -/

/-- C10: empty path segments are skipped during traversal: for every tree,
`getAtPath(root, "")` returns the root with `found = true`, and `"a..b"`
addresses the same node as `"a.b"`; by contrast `setAtPath` on a path
consisting only of empty segments returns `false` and leaves the tree
unchanged (the functional embedding returns `none`, and the source
mutates only on the `true` return). -/
theorem getAtPath_empty_segments :
    (∀ t : GoVal, getAtPath t "" = some t)
    ∧ (∀ t : GoVal, getAtPath t "a..b" = getAtPath t "a.b")
    ∧ (∀ (t : GoVal) (p : String) (v : GoVal),
        (∀ part ∈ goSplitDot p, goTrim part = "") → setAtPath t p v = none) := by
  refine ⟨fun t => rfl, fun t => ?_, fun t p v h => setParts_all_empty _ h t v⟩
  show getParts t ["a", "", "b"] = getParts t ["a", "b"]
  cases t with
  | vmap entries =>
    show (match assocLookup entries "a" with
          | some child => getParts child ["", "b"]
          | none => none) =
         (match assocLookup entries "a" with
          | some child => getParts child ["b"]
          | none => none)
    cases assocLookup entries "a" with
    | none => rfl
    | some child => rfl
  | vlist items =>
    show (match listIdx items.length "a" with
          | some i => getParts (items.getD i (.str "")) ["", "b"]
          | none => none) =
         (match listIdx items.length "a" with
          | some i => getParts (items.getD i (.str "")) ["b"]
          | none => none)
    cases listIdx items.length "a" with
    | none => rfl
    | some i => rfl
  | str s => rfl
  | int n => rfl
  | bool b => rfl

/-- Witness for `getAtPath_empty_segments`: concrete instances of all
three conjuncts, with the third conjunct's hypothesis discharged at the
one-dot path `"."`. -/
theorem getAtPath_empty_segments_witness :
    setAtPath (.vmap [("a", .str "x")]) "." (.str "v") = none :=
  getAtPath_empty_segments.2.2 (.vmap [("a", .str "x")]) "." (.str "v") (by decide)

/-- C5 counterexample: the view/action resolver does not force the result
into the four recognized pairs — an unrecognized non-empty `view` such as
`"grid"` passes through defaulting untouched, and `Render`'s fifth
`unknown view/action` fallback branch is then reached. -/
theorem resolveViewAction_fifth_branch_reachable :
    resolveViewAction (Fields.mk "grid" "" "" "" "" "") = ("grid", "render")
    ∧ ("grid", "render") ∉ fourModes
    ∧ renderDispatch "grid" "render" = RenderBranch.unknown := by
  refine ⟨rfl, by decide, rfl⟩

/-- C5 (amended): whenever the trimmed lower-cased `view` is empty or one
of `list`/`single` and the trimmed lower-cased `action` is empty or one of
`render`/`edit` (the legacy `mode` may be anything), the resolver yields
one of exactly the four pairs and the fallback branch is not taken;
arbitrary other strings flow through to the fallback (see the
counterexample). -/
theorem resolveViewAction_recognized_total (f : Fields)
    (hv : goToLower (goTrim f.View) ∈ ["", "list", "single"])
    (ha : goToLower (goTrim f.Action) ∈ ["", "render", "edit"]) :
    resolveViewAction f ∈ fourModes
    ∧ renderDispatch (resolveViewAction f).1 (resolveViewAction f).2 ≠ RenderBranch.unknown := by
  simp only [List.mem_cons, List.not_mem_nil, or_false] at hv ha
  unfold resolveViewAction
  rcases hv with hv | hv | hv <;> rcases ha with ha | ha | ha <;>
    rw [hv, ha] <;> dsimp only <;> split_ifs <;> simp_all [renderDispatch, fourModes]

/-- Witness for `resolveViewAction_recognized_total` at an empty
configuration (defaults to `(list, render)`). -/
theorem resolveViewAction_recognized_total_witness :
    resolveViewAction (Fields.mk "" "" "" "" "" "") ∈ fourModes
    ∧ renderDispatch (resolveViewAction (Fields.mk "" "" "" "" "" "")).1
        (resolveViewAction (Fields.mk "" "" "" "" "" "")).2 ≠ RenderBranch.unknown :=
  resolveViewAction_recognized_total (Fields.mk "" "" "" "" "" "") (by decide) (by decide)


/-- C2 counterexample: on an empty store, `update(7, "article", {title: "C"})`
and `delete(7, "article")` both return without error even though no record
with id 7 exists — `updateRecord` even inserts the supplied field rows
under the nonexistent id — so update and delete do not return an explicit
not-found error. -/
theorem updateRecord_missing_silently_succeeds :
    updateRecord (Store.mk [] [] 1 0) 7 "article" [("title", "C")]
      = .ok (Store.mk [] [FieldRow.mk 7 "title" "C"] 1 0)
    ∧ deleteRecord (Store.mk [] [] 1 0) 7 "article" = .ok (Store.mk [] [] 1 0) :=
  ⟨rfl, rfl⟩

/-- C2 (amended): when no record matches the id (and non-empty type),
only `updateRecordField` reports the explicit `record not found` error;
`updateRecord` and `deleteRecord` silently succeed with no record
matched (`updateRecord` moreover inserts the supplied field rows under
the nonexistent id). -/
theorem missing_record_error_only_for_field_update
    (s : Store) (rid : Int) (ctype : String) (vals : List (String × String)) (k v : String)
    (hmiss : ∀ r ∈ s.recs, matchesRec rid ctype r = false) :
    ((vals.map Prod.fst).Nodup → ∃ s', updateRecord s rid ctype vals = .ok s')
    ∧ (∃ s'', deleteRecord s rid ctype = .ok s'')
    ∧ (rid ≠ 0 → goTrim k ≠ "" →
        updateRecordField s rid ctype k v = .error "record not found") := by
  refine ⟨fun hnodup => ?_, ⟨_, rfl⟩, fun h0 hk => ?_⟩
  · have hdisj2 : ∀ f ∈ (s.flds.filter fun f => !(f.recordId == rid)),
        f.recordId = rid → f.bindKey ∉ vals.map Prod.fst := by
      intro f hf hrid
      have hmem := List.of_mem_filter hf
      simp only [Bool.not_eq_eq_eq_not, Bool.not_true, beq_eq_false_iff_ne, ne_eq] at hmem
      exact absurd hrid hmem
    exact ⟨_, by simp only [updateRecord]; rw [upsertFields_ok rid vals _ hdisj2 hnodup]⟩
  · have h0' : (rid == 0) = false := by simpa using h0
    have hcount : (s.recs.countP fun r => matchesRec rid ctype r) = 0 := by
      rw [List.countP_eq_zero]
      intro r hr
      simp [hmiss r hr]
    simp [updateRecordField, h0', hk, hcount]

/-- Witness for `missing_record_error_only_for_field_update` on the empty
store. -/
theorem missing_record_error_only_for_field_update_witness :
    updateRecordField (Store.mk [] [] 1 0) 7 "article" "title" "X"
      = .error "record not found" :=
  (missing_record_error_only_for_field_update (Store.mk [] [] 1 0) 7 "article"
      [("title", "C")] "title" "X" (by decide)).2.2 (by decide) (by decide)

/-- C1: for every existing record (matching the optionally-empty type) and
every field-value map, `update(id, type, fieldValues)` replaces the
record's entire field set: a subsequent fetch by id returns exactly
`fieldValues` — every field omitted from `fieldValues` is lost. -/
theorem update_replaces_all_fields
    (s : Store) (rid : Int) (ctype : String) (vals : List (String × String))
    (h0 : rid ≠ 0)
    (hex : ∃ r ∈ s.recs, matchesRec rid ctype r = true)
    (hnodup : (vals.map Prod.fst).Nodup) :
    ∃ s', updateRecord s rid ctype vals = .ok s'
      ∧ fetchRecordByID s' rid ctype = .ok (Rec.mk rid vals) := by
  refine ⟨_, updateRecord_ok s rid ctype vals hnodup, ?_⟩
  have h0' : (rid == 0) = false := by simpa using h0
  obtain ⟨r, hr, hmr⟩ := hex
  have hex' : ∃ x ∈ (s.recs.map fun r =>
      if matchesRec rid ctype r then { r with updatedAt := s.now } else r),
      matchesRec rid ctype x = true := by
    refine ⟨if matchesRec rid ctype r then { r with updatedAt := s.now } else r,
      List.mem_map_of_mem _ hr, ?_⟩
    rw [hmr, if_pos rfl]
    rw [matchesRec_touch]
    exact hmr
  obtain ⟨r0, hhead, hr0⟩ := filter_head_exists _ _ hex'
  have hid : r0.id = rid := matchesRec_id hr0
  simp only [fetchRecordByID, h0', Bool.false_eq_true, if_false, hhead, hid]
  have h1 : (List.filter (fun f => f.recordId == rid)
      (s.flds.filter fun f => !(f.recordId == rid))) = [] := by
    simp [List.filter_filter]
  have h2 : (List.filter (fun f => f.recordId == rid)
      (vals.map fun kv => (⟨rid, kv.1, kv.2⟩ : FieldRow)))
      = vals.map fun kv => (⟨rid, kv.1, kv.2⟩ : FieldRow) := by
    refine List.filter_eq_self.mpr ?_
    intro row hrow
    obtain ⟨kv, _, rfl⟩ := List.mem_map.mp hrow
    simp
  have h3 : ((fun f : FieldRow => (f.bindKey, f.value)) ∘
      fun kv : String × String => (⟨rid, kv.1, kv.2⟩ : FieldRow)) = id := by
    funext kv
    rfl
  simp only [fetchRecordFields, List.filter_append, h1, h2, List.nil_append,
    List.map_map, h3, List.map_id]
  rw [dedupFirst_eq_self vals [] hnodup (fun kv _ => List.not_mem_nil _)]

/-- Witness for `update_replaces_all_fields`: updating the record
`{title: "A", body: "B"}` with `{title: "C"}` makes the fetch return
exactly `{title: "C"}`. -/
theorem update_replaces_all_fields_witness :
    ∃ s', updateRecord
        (Store.mk [RecRow.mk 1 "article" 0 0]
          [FieldRow.mk 1 "title" "A", FieldRow.mk 1 "body" "B"] 2 5)
        1 "article" [("title", "C")] = .ok s'
      ∧ fetchRecordByID s' 1 "article" = .ok (Rec.mk 1 [("title", "C")]) :=
  update_replaces_all_fields
    (Store.mk [RecRow.mk 1 "article" 0 0]
      [FieldRow.mk 1 "title" "A", FieldRow.mk 1 "body" "B"] 2 5)
    1 "article" [("title", "C")] (by decide)
    ⟨RecRow.mk 1 "article" 0 0, by decide, by decide⟩ (by decide)

/-- C8: seeding is idempotent after first success: on a store with zero
records of the given type, `seedIfEmpty` creates exactly one record with
values taken from the template's current in-place values at each bound
path; called again it creates no record and overwrites nothing, so two
successive calls on an initially empty store leave exactly one record. -/
theorem seedIfEmpty_idempotent
    (s : Store) (template : Node) (binds : BindList) (ctype : String)
    (hcount : countRecords s ctype = 0)
    (hnodup : (binds.map Prod.fst).Nodup)
    (hfresh : ∀ f ∈ s.flds, f.recordId ≠ s.nextId) :
    ∃ s₁, ensureSeed s template binds ctype = .ok s₁
      ∧ s₁.recs = s.recs ++ [RecRow.mk s.nextId ctype s.now s.now]
      ∧ s₁.flds = s.flds ++ (defaultValuesFromTemplate template binds).map
          (fun kv => FieldRow.mk s.nextId kv.1 kv.2)
      ∧ countRecords s₁ ctype = 1
      ∧ ensureSeed s₁ template binds ctype = .ok s₁ := by
  have hkeys : ((defaultValuesFromTemplate template binds).map Prod.fst).Nodup := by
    simpa [defaultValuesFromTemplate, List.map_map, Function.comp] using hnodup
  have hdisj : ∀ f ∈ s.flds, f.recordId = s.nextId →
      f.bindKey ∉ (defaultValuesFromTemplate template binds).map Prod.fst :=
    fun f hf hr => absurd hr (hfresh f hf)
  have hcreate := upsertFields_ok s.nextId (defaultValuesFromTemplate template binds)
    s.flds hdisj hkeys
  refine ⟨{ s with
      recs := s.recs ++ [RecRow.mk s.nextId ctype s.now s.now]
      flds := s.flds ++ (defaultValuesFromTemplate template binds).map
        (fun kv => FieldRow.mk s.nextId kv.1 kv.2)
      nextId := s.nextId + 1 }, ?_, rfl, rfl, ?_, ?_⟩
  · simp only [ensureSeed, hcount, gt_iff_lt, Nat.lt_irrefl, if_false,
      createRecordFromTemplate, createRecord, hcreate]
  · by_cases hct : goTrim ctype = ""
    · simp only [countRecords, hct, if_pos, List.length_append, List.length_cons,
        List.length_nil]
      have : s.recs.length = 0 := by simpa [countRecords, hct] using hcount
      omega
    · simp only [countRecords, hct, if_false, List.filter_append]
      have hnew : List.filter (fun r => r.rtype == ctype)
          [RecRow.mk s.nextId ctype s.now s.now] = [RecRow.mk s.nextId ctype s.now s.now] := by
        simp
      rw [hnew]
      have : (s.recs.filter fun r => r.rtype == ctype).length = 0 := by
        simpa [countRecords, hct] using hcount
      simp [this]
  · have h1 : countRecords
        { s with
          recs := s.recs ++ [RecRow.mk s.nextId ctype s.now s.now]
          flds := s.flds ++ (defaultValuesFromTemplate template binds).map
            (fun kv => FieldRow.mk s.nextId kv.1 kv.2)
          nextId := s.nextId + 1 } ctype = 1 := by
      by_cases hct : goTrim ctype = ""
      · simp only [countRecords, hct, if_pos, List.length_append, List.length_cons,
          List.length_nil]
        have : s.recs.length = 0 := by simpa [countRecords, hct] using hcount
        omega
      · simp only [countRecords, hct, if_false, List.filter_append]
        have hnew : List.filter (fun r => r.rtype == ctype)
            [RecRow.mk s.nextId ctype s.now s.now] = [RecRow.mk s.nextId ctype s.now s.now] := by
          simp
        rw [hnew]
        have : (s.recs.filter fun r => r.rtype == ctype).length = 0 := by
          simpa [countRecords, hct] using hcount
        simp [this]
    simp only [ensureSeed, h1, gt_iff_lt, Nat.zero_lt_one, if_true]

/-- Witness for `seedIfEmpty_idempotent` on an empty store with one bind
whose path points at the template's `title.value`. -/
theorem seedIfEmpty_idempotent_witness :
    ∃ s₁, ensureSeed (Store.mk [] [] 1 0)
        [("title", .vmap [("value", .str "Hello")])]
        [("title", bindTarget.mk "title.value")] "article" = .ok s₁
      ∧ s₁.recs = [] ++ [RecRow.mk 1 "article" 0 0]
      ∧ s₁.flds = [] ++ (defaultValuesFromTemplate
          [("title", .vmap [("value", .str "Hello")])]
          [("title", bindTarget.mk "title.value")]).map
            (fun kv => FieldRow.mk 1 kv.1 kv.2)
      ∧ countRecords s₁ "article" = 1
      ∧ ensureSeed s₁ [("title", .vmap [("value", .str "Hello")])]
          [("title", bindTarget.mk "title.value")] "article" = .ok s₁ :=
  seedIfEmpty_idempotent (Store.mk [] [] 1 0)
    [("title", .vmap [("value", .str "Hello")])]
    [("title", bindTarget.mk "title.value")] "article"
    (by decide) (by decide) (by decide)

/-- C7: `updateField(id, type, bindKey, value)` on an existing record
changes only the named field of that record — every other field of that
record and all fields of other records are unchanged, and ids/types of
all records are preserved — and fails with the explicit `record not
found` error when no record matches (the Go transaction rolls back, so
the store is unchanged on error). -/
theorem updateField_only_named_field
    (s : Store) (rid : Int) (ctype : String) (bk value : String)
    (h0 : rid ≠ 0) (hbk : goTrim bk ≠ "") :
    ((∃ r ∈ s.recs, matchesRec rid ctype r = true) →
      ∃ s', updateRecordField s rid ctype bk value = .ok s'
        ∧ fieldLookup (fetchRecordFields s' rid) bk = some value
        ∧ (∀ k, k ≠ bk → fieldLookup (fetchRecordFields s' rid) k
            = fieldLookup (fetchRecordFields s rid) k)
        ∧ (∀ rid', rid' ≠ rid → fetchRecordFields s' rid' = fetchRecordFields s rid')
        ∧ s'.recs.map (fun r => (r.id, r.rtype)) = s.recs.map (fun r => (r.id, r.rtype)))
    ∧ ((∀ r ∈ s.recs, matchesRec rid ctype r = false) →
        updateRecordField s rid ctype bk value = .error "record not found") := by
  have h0' : (rid == 0) = false := by simpa using h0
  constructor
  · intro hex
    have hcnt : (s.recs.countP fun r => matchesRec rid ctype r) ≠ 0 := by
      rw [Ne, List.countP_eq_zero]
      push_neg
      obtain ⟨r, hr, hmr⟩ := hex
      exact ⟨r, hr, by simp [hmr]⟩
    have hcnt' : ((s.recs.countP fun r => matchesRec rid ctype r) == 0) = false := by
      simpa using hcnt
    by_cases hfa : (s.flds.countP fun f => f.recordId == rid && f.bindKey == bk) = 0
    · -- no (record_id, bind_key) row yet: the UPDATE touches nothing, the INSERT appends
      have hmiss : ∀ f ∈ s.flds, ¬(f.recordId = rid ∧ f.bindKey = bk) := by
        rw [List.countP_eq_zero] at hfa
        intro f hf hp
        exact hfa f hf (by simp [hp.1, hp.2])
      have hfa' : ((s.flds.countP fun f => f.recordId == rid && f.bindKey == bk) == 0)
          = true := by simp [hfa]
      refine ⟨{ s with
          recs := s.recs.map fun r =>
            if matchesRec rid ctype r then { r with updatedAt := s.now } else r
          flds := s.flds ++ [FieldRow.mk rid bk value] }, ?_, ?_, ?_, ?_, ?_⟩
      · simp only [updateRecordField, h0', Bool.false_eq_true, if_false, hbk, hcnt',
          hfa', if_true]
        rw [rowUpdate_miss_id rid bk value s.flds hmiss]
      · rw [fieldLookup_fetchRecordFields]
        simp only [List.filter_append, List.map_append]
        rw [fieldLookup_append]
        rw [fieldLookup_miss rid bk s.flds hmiss]
        simp [fieldLookup]
      · intro k hk
        rw [fieldLookup_fetchRecordFields, fieldLookup_fetchRecordFields]
        simp only [List.filter_append, List.map_append]
        rw [fieldLookup_append]
        cases hfirst : fieldLookup ((List.filter (fun f => f.recordId == rid) s.flds).map
            fun f => (f.bindKey, f.value)) k with
        | some w => simp
        | none =>
          simp only
          have : List.filter (fun f => f.recordId == rid) [FieldRow.mk rid bk value]
              = [FieldRow.mk rid bk value] := by simp
          rw [this]
          have hne : bk ≠ k := fun h => hk h.symm
          simp [fieldLookup, hne]
      · intro rid' hne
        simp only [fetchRecordFields, List.filter_append]
        have : List.filter (fun f => f.recordId == rid') [FieldRow.mk rid bk value] = [] := by
          simp [beq_eq_false_iff_ne.mpr (fun h => hne h.symm)]
        rw [this, List.append_nil]
      · exact touch_preserves_id_type s rid ctype
    · -- a row exists: the UPDATE replaces its value, nothing is inserted
      have hfa' : ((s.flds.countP fun f => f.recordId == rid && f.bindKey == bk) == 0)
          = false := by simpa using hfa
      have hhit : ∃ f ∈ s.flds, f.recordId = rid ∧ f.bindKey = bk := by
        have hpos : 0 < s.flds.countP fun f => f.recordId == rid && f.bindKey == bk :=
          Nat.pos_of_ne_zero hfa
        obtain ⟨f, hf, hp⟩ := List.countP_pos_iff.mp hpos
        simp only [Bool.and_eq_true, beq_iff_eq] at hp
        exact ⟨f, hf, hp⟩
      refine ⟨{ s with
          recs := s.recs.map fun r =>
            if matchesRec rid ctype r then { r with updatedAt := s.now } else r
          flds := s.flds.map fun f =>
            if f.recordId == rid && f.bindKey == bk then { f with value := value } else f },
          ?_, ?_, ?_, ?_, ?_⟩
      · simp only [updateRecordField, h0', Bool.false_eq_true, if_false, hbk, hcnt',
          hfa']
      · rw [fieldLookup_fetchRecordFields]
        simp only
        rw [filter_rowUpdate, pairs_rowUpdate]
        obtain ⟨f, hf, hfr, hfb⟩ := hhit
        have hmemf : f ∈ s.flds.filter fun f => f.recordId == rid :=
          List.mem_filter.mpr ⟨hf, by simp [hfr]⟩
        have hkey : bk ∈ ((s.flds.filter fun f => f.recordId == rid).map
            fun f => (f.bindKey, f.value)).map Prod.fst := by
          rw [List.map_map]
          exact hfb ▸ List.mem_map_of_mem (fun f => (Prod.fst ((f.bindKey, f.value)))) hmemf
        obtain ⟨w, hw⟩ := fieldLookup_isSome_of_mem _ bk hkey
        exact fieldLookup_valueReplace_hit bk value _ w hw
      · intro k hk
        rw [fieldLookup_fetchRecordFields, fieldLookup_fetchRecordFields]
        simp only
        rw [filter_rowUpdate, pairs_rowUpdate]
        exact fieldLookup_valueReplace_other bk value _ k hk
      · intro rid' hne
        simp only [fetchRecordFields]
        rw [filter_rowUpdate, rowUpdate_other_record rid bk value s.flds rid' hne]
      · exact touch_preserves_id_type s rid ctype
  · intro hmiss
    have hcnt : (s.recs.countP fun r => matchesRec rid ctype r) = 0 := by
      rw [List.countP_eq_zero]
      intro r hr
      simp [hmiss r hr]
    simp [updateRecordField, h0', hbk, hcnt]

/-- Witness for `updateField_only_named_field`: updating `body` of record
1 (holding `title` and `body`) to `"X"` succeeds and leaves `title`
untouched. -/
theorem updateField_only_named_field_witness :
    ∃ s', updateRecordField
        (Store.mk [RecRow.mk 1 "article" 0 0]
          [FieldRow.mk 1 "title" "A", FieldRow.mk 1 "body" "B"] 2 5)
        1 "article" "body" "X" = .ok s'
      ∧ fieldLookup (fetchRecordFields s' 1) "body" = some "X"
      ∧ (∀ k, k ≠ "body" → fieldLookup (fetchRecordFields s' 1) k
          = fieldLookup (fetchRecordFields
              (Store.mk [RecRow.mk 1 "article" 0 0]
                [FieldRow.mk 1 "title" "A", FieldRow.mk 1 "body" "B"] 2 5) 1) k)
      ∧ (∀ rid', rid' ≠ 1 → fetchRecordFields s' rid'
          = fetchRecordFields
              (Store.mk [RecRow.mk 1 "article" 0 0]
                [FieldRow.mk 1 "title" "A", FieldRow.mk 1 "body" "B"] 2 5) rid')
      ∧ s'.recs.map (fun r => (r.id, r.rtype))
          = [RecRow.mk 1 "article" 0 0].map (fun r => (r.id, r.rtype)) :=
  (updateField_only_named_field
    (Store.mk [RecRow.mk 1 "article" 0 0]
      [FieldRow.mk 1 "title" "A", FieldRow.mk 1 "body" "B"] 2 5)
    1 "article" "body" "X" (by decide) (by decide)).1
    ⟨RecRow.mk 1 "article" 0 0, by decide, by decide⟩

/-- C6 counterexample: the round trip does not hold unconditionally — on
the empty tree (which contains no boundary anywhere) the path `"a.b"`
has no addressable target, so `setAtPath` returns `false` (leaving the
tree unchanged) and the subsequent `getAtPath` does not return the
written value. -/
theorem setAtPath_roundtrip_counterexample :
    setAtPath (.vmap []) "a.b" (.str "x") = none
    ∧ getAtPath (.vmap []) "a.b" ≠ some (.str "x") := by
  refine ⟨rfl, ?_⟩
  intro h
  rw [show getAtPath (.vmap []) "a.b" = none from rfl] at h
  exact Option.noConfusion h

/-- C6 (amended): for all trees `T` and paths `p`, whenever
`setAtPath(T, p, v)` succeeds (returns `true`, with `T'` the updated
tree), `getAtPath(T', p)` returns `(v, true)`. -/
theorem setAtPath_getAtPath_roundtrip (t : GoVal) (p : String) (v t' : GoVal)
    (h : setAtPath t p v = some t') : getAtPath t' p = some v :=
  setParts_getParts (goSplitDot p) t v t' h

/-- Witness for `setAtPath_getAtPath_roundtrip` at a two-level map path. -/
theorem setAtPath_getAtPath_roundtrip_witness :
    getAtPath (.vmap [("a", .vmap [("b", .str "new")])]) "a.b" = some (.str "new") :=
  setAtPath_getAtPath_roundtrip (.vmap [("a", .vmap [("b", .str "old")])]) "a.b"
    (.str "new") (.vmap [("a", .vmap [("b", .str "new")])]) rfl

/-- C4: a bind key appears in the collected Bind Index exactly when a
well-formed `@bind` declaring it is reachable by the traversal: starting
at the root, descending only through map children under non-`@`-prefixed
keys, and never descending past a node recognized as a boundary — while
every node reached, a boundary node included, still contributes its own
`@bind`.  Hence a bind declared only strictly inside a boundary subtree
is absent from the index, and a `@bind` carried on the boundary node
itself is still collected. -/
theorem collectBinds_boundary_characterization (node : Node) (path f : String) :
    f ∈ bindKeys (collectBinds node path []) ↔ BindReach node f := by
  constructor
  · intro hf
    rcases collectBindsVal_sound (sizeOf (GoVal.vmap node)) (.vmap node) rfl path [] f hf with
      h1 | ⟨entries, he, hr⟩
    · simp [bindKeys] at h1
    · injection he with h
      exact h ▸ hr
  · intro hr
    exact collectBindsVal_complete node f hr path []

/-- C9: `collectBinds` recurses only into map children — the contents of
sequence (list) nodes are never read, so erasing every sequence anywhere
in the tree leaves the collected Bind Index unchanged, and every
collected key is reachable through map children alone (`BindReach`
steps only into `GoVal.vmap` children); a `@bind` declared on or below
a sequence child is therefore never added, at any depth. -/
theorem collectBinds_skips_sequences :
    (∀ (node : Node) (path : String) (binds : BindList),
      collectBinds (eraseListsEntries node) path binds = collectBinds node path binds)
    ∧ (∀ (node : Node) (path f : String),
        f ∈ bindKeys (collectBinds node path []) → BindReach node f) := by
  constructor
  · intro node path binds
    exact collectBindsVal_eraseLists (sizeOf (GoVal.vmap node)) (GoVal.vmap node) rfl path binds
  · intro node path f hf
    rcases collectBindsVal_sound (sizeOf (GoVal.vmap node)) (.vmap node) rfl path [] f hf with
      h1 | ⟨entries, he, hr⟩
    · simp [bindKeys] at h1
    · injection he with h
      exact h ▸ hr

/-- Witness for `collectBinds_skips_sequences`: the collected field
`title` of a concrete template is traversal-reachable. -/
theorem collectBinds_skips_sequences_witness :
    BindReach [("@bind", .vmap [("field", .str "title"), ("path", .str "p")])] "title" :=
  collectBinds_skips_sequences.2
    [("@bind", .vmap [("field", .str "title"), ("path", .str "p")])] "" "title" (by decide)

/-- C3: for an inline-edit POST (parsed payload, truthy inline flag,
non-empty bind key): when the bind key is not in this instance's Bind
Index, the handler declines — falls through with no field update and no
HTTP response — exactly when the template contains any boundary subtree,
and otherwise answers 400 with the `unknown bind` JSON error body; when
the bind key is known and the update succeeds, the resulting store is
exactly one `updateRecordField` application and the response is 200 with
body `{status: "ok", record_id, bind, value}`. -/
theorem inline_unknown_bind_and_success
    (req : InlineRequest) (s : Store) (ct : String) (binds : BindList)
    (fields : Fields) (template : Node) (payload : InlinePayload)
    (hpres : req.present = true) (hmeth : req.method = "POST")
    (hpay : req.payload = .ok payload)
    (hinline : parseBoolFlag payload.Inline = true)
    (hbk : goTrim payload.Bind ≠ "") :
    ((bindLookup binds (goTrim payload.Bind)).isNone = true →
      handleInlineUpdate req s ct binds fields template =
        (if hasBoundaryPlugin (.vmap template) then (false, none, s)
         else (true, some ⟨400, [("error", "unknown bind")]⟩, s)))
    ∧ (∀ rid s',
        (bindLookup binds (goTrim payload.Bind)).isSome = true →
        rid = (if parseRecordID (goTrim payload.RecordID) == 0 then req.ctxRecordID
               else parseRecordID (goTrim payload.RecordID)) →
        rid ≠ 0 →
        goStartsWith req.contentTypeHeader "multipart/form-data" = false →
        updateRecordField s rid ct (goTrim payload.Bind) payload.Value = .ok s' →
        handleInlineUpdate req s ct binds fields template =
          (true, some ⟨200, [("status", "ok"), ("record_id", toString rid),
            ("bind", goTrim payload.Bind), ("value", payload.Value)]⟩, s')) := by
  constructor
  · intro hnone
    simp only [handleInlineUpdate, hpres, hmeth, hpay, hinline, hbk, hnone]
    simp
  · intro rid s' hsome hrid hrid0 hmp hupd
    obtain ⟨t, ht⟩ := Option.isSome_iff_exists.mp hsome
    have hnone' : (bindLookup binds (goTrim payload.Bind)).isNone = false := by
      simp [ht]
    have hrid' : (if parseRecordID (goTrim payload.RecordID) == 0 then req.ctxRecordID
        else parseRecordID (goTrim payload.RecordID)) = rid := hrid.symm
    have hrid0' : (rid == 0) = false := by simpa using hrid0
    simp only [handleInlineUpdate, hpres, hmeth, hpay, hinline, hbk, hnone',
      Bool.false_eq_true, if_false, hrid', hrid0', hmp, hupd]
    simp

/-- Witness for `inline_unknown_bind_and_success`: a concrete inline POST
`{cr_inline: "1", record_id: "7", bind: "title", value: "Hi"}` against a
store containing record 7 is answered 200 with the normalized body, and
the store holds exactly the single-field update. -/
theorem inline_unknown_bind_and_success_witness :
    handleInlineUpdate
        (InlineRequest.mk true "POST" (.ok (InlinePayload.mk "1" "7" "title" "Hi"))
          "application/json" 0 false (.ok "") (.ok ""))
        (Store.mk [RecRow.mk 7 "article" 0 0] [] 8 3)
        "article" [("title", bindTarget.mk "t.v")] (Fields.mk "" "" "" "" "" "") [] =
      (true,
        some ⟨200, [("status", "ok"), ("record_id", "7"), ("bind", "title"), ("value", "Hi")]⟩,
        Store.mk [RecRow.mk 7 "article" 0 3] [FieldRow.mk 7 "title" "Hi"] 8 3) :=
  (inline_unknown_bind_and_success
      (InlineRequest.mk true "POST" (.ok (InlinePayload.mk "1" "7" "title" "Hi"))
        "application/json" 0 false (.ok "") (.ok ""))
      (Store.mk [RecRow.mk 7 "article" 0 0] [] 8 3)
      "article" [("title", bindTarget.mk "t.v")] (Fields.mk "" "" "" "" "" "") []
      (InlinePayload.mk "1" "7" "title" "Hi") rfl rfl rfl (by decide) (by decide)).2
    7 (Store.mk [RecRow.mk 7 "article" 0 3] [FieldRow.mk 7 "title" "Hi"] 8 3)
    (by decide) (by decide) (by decide) (by decide) rfl

end ContentRecords
